import Mathlib

/-!
Verification of the sqs-monitor controller state machine and its
dispatcher, shallowly embedded from `src/app.rs` and `src/main.rs`.

The remote SQS client is an external collaborator; its three fallible
calls (`list_queues`, `get_queue_details`, `purge_queue`) are modelled
as `Except String _` results supplied to the operations as oracle
inputs.  Wall-clock time (`Utc::now`) is an oracle `Nat`.
-/

namespace SqsMonitor

/-- `QueueInfo` from `src/types.rs`.  The `i64` counters are modelled as
`Int`; the `DateTime<Utc>` timestamp as an opaque `Nat`. -/
structure QueueInfo where
  url : String
  name : String
  approximate_messages : Int
  approximate_messages_not_visible : Int
  approximate_messages_delayed : Int
  last_updated : Nat
deriving Repr, DecidableEq

/-- `QueueDetails` from `src/types.rs`. -/
structure QueueDetails where
  arn : Option String
  created_timestamp : Option Int
  last_modified_timestamp : Option Int
  message_retention_period : Option Int
  visibility_timeout : Option Int
  maximum_message_size : Option Int
  delay_seconds : Option Int
deriving Repr, DecidableEq

/-- The `App` struct from `src/app.rs`, without the `sqs_client` handle
(whose calls are passed in as oracle results) and with
`refresh_interval` omitted (a constant never read by the controller
logic modelled here). -/
structure App where
  queues : List QueueInfo
  all_queues : List QueueInfo
  selected_index : Nat
  selected_details : Option QueueDetails
  last_refresh : Option Nat
  status_message : String
  should_quit : Bool
  filter_non_empty : Bool
  awaiting_purge_confirmation : Bool
  purge_in_progress : Bool
deriving Repr, DecidableEq

/-- The state built by `App::new` in `src/app.rs`. -/
def initApp : App :=
  { queues := []
    all_queues := []
    selected_index := 0
    selected_details := none
    last_refresh := none
    status_message := "Initializing..."
    should_quit := false
    filter_non_empty := false
    awaiting_purge_confirmation := false
    purge_in_progress := false }

/-- Stable insertion of `x` into `l` for the descending comparator
`b.approximate_messages.cmp(&a.approximate_messages)`: `x` moves past
exactly the elements with a strictly larger count. -/
def insertDesc (x : QueueInfo) : List QueueInfo → List QueueInfo
  | [] => [x]
  | y :: ys =>
    if x.approximate_messages < y.approximate_messages then
      y :: insertDesc x ys
    else
      x :: y :: ys

/-- `queues.sort_by(|a, b| b.approximate_messages.cmp(&a.approximate_messages))`
from `App::refresh_queues`.  Rust's `sort_by` is documented stable, and a
stable sort's output is uniquely determined by the comparator and the
input order; stable insertion sort computes that same output. -/
def sortQueues : List QueueInfo → List QueueInfo
  | [] => []
  | x :: xs => insertDesc x (sortQueues xs)

/-- `App::apply_filter` from `src/app.rs`. -/
def apply_filter (s : App) : App :=
  if s.filter_non_empty then
    { s with queues := s.all_queues.filter (fun q => 0 < q.approximate_messages) }
  else
    { s with queues := s.all_queues }

/-- The `// Reset selection if needed` clamp duplicated in
`App::refresh_queues` and `App::toggle_filter`:
`if self.selected_index >= self.queues.len() && !self.queues.is_empty()
{ self.selected_index = 0; }`. -/
def reset_selection (s : App) : App :=
  if s.queues.length ≤ s.selected_index ∧ s.queues ≠ [] then
    { s with selected_index := 0 }
  else s

/-- `App::refresh_selected_details`, with the result of
`sqs_client.get_queue_details` supplied as `dr`. -/
def refresh_selected_details (s : App) (dr : Except String QueueDetails) : App :=
  match s.queues.get? s.selected_index with
  | some _ =>
    match dr with
    | .ok details => { s with selected_details := some details }
    | .error e => { s with status_message := "Error fetching details: " ++ e }
  | none => s

/-- The tail of the success branch of `App::refresh_queues`: the
selection clamp followed by
`if !self.queues.is_empty() && self.selected_index < self.queues.len()
{ self.refresh_selected_details().await?; }`. -/
def refresh_finish (s : App) (dr : Except String QueueDetails) : App :=
  let s4 := reset_selection s
  if s4.queues ≠ [] ∧ s4.selected_index < s4.queues.length then
    refresh_selected_details s4 dr
  else s4

/-- `App::refresh_queues`, with the result of `sqs_client.list_queues`
supplied as `lr`, the nested detail fetch's result as `dr`, and
`Utc::now()` as `now`. -/
def refresh_queues (s : App) (lr : Except String (List QueueInfo))
    (dr : Except String QueueDetails) (now : Nat) : App :=
  let s0 := { s with status_message := "Refreshing queues..." }
  match lr with
  | .ok qs =>
    let s1 := apply_filter { s0 with all_queues := sortQueues qs }
    let s2 := { s1 with last_refresh := some now }
    let total := s2.all_queues.length
    let filtered := s2.queues.length
    let s3 := { s2 with status_message :=
      if s2.filter_non_empty then
        "Connected to AWS | " ++ toString filtered ++ " of " ++ toString total
          ++ " queues (non-empty only)"
      else
        "Connected to AWS | " ++ toString total ++ " queues found" }
    refresh_finish s3 dr
  | .error e => { s0 with status_message := "Error: " ++ e }

/-- `App::next_queue`. -/
def next_queue (s : App) : App :=
  if s.queues ≠ [] then
    { s with selected_index := (s.selected_index + 1) % s.queues.length }
  else s

/-- `App::previous_queue`. -/
def previous_queue (s : App) : App :=
  if s.queues ≠ [] then
    if 0 < s.selected_index then
      { s with selected_index := s.selected_index - 1 }
    else
      { s with selected_index := s.queues.length - 1 }
  else s

/-- `App::quit`. -/
def quit (s : App) : App := { s with should_quit := true }

/-- `App::selected_queue`: `self.queues.get(self.selected_index)`. -/
def selected_queue (s : App) : Option QueueInfo :=
  s.queues.get? s.selected_index

/-- `App::toggle_filter`. -/
def toggle_filter (s : App) : App :=
  let s1 := apply_filter { s with filter_non_empty := !s.filter_non_empty }
  let s2 := reset_selection s1
  let total := s2.all_queues.length
  let filtered := s2.queues.length
  { s2 with status_message :=
    if s2.filter_non_empty then
      "Filter: ON | " ++ toString filtered ++ " of " ++ toString total
        ++ " queues (non-empty only)"
    else
      "Filter: OFF | " ++ toString total ++ " queues shown" }

/-- `App::request_purge_confirmation`. -/
def request_purge_confirmation (s : App) : App :=
  match selected_queue s with
  | some q =>
    { s with awaiting_purge_confirmation := true
             status_message :=
               "Purge queue \x27" ++ q.name ++ "\x27? Press Y to confirm, N to cancel" }
  | none => s

/-- `App::begin_purge`: returns the updated state together with the
`Option<(String, String)>` of (queue url, queue name). -/
def begin_purge (s : App) : App × Option (String × String) :=
  let s1 := { s with awaiting_purge_confirmation := false }
  match selected_queue s1 with
  | some q =>
    ({ s1 with purge_in_progress := true
               status_message := "Purging queue \x27" ++ q.name ++ "\x27..." },
     some (q.url, q.name))
  | none => (s1, none)

/-- `App::execute_purge`, with the result of `sqs_client.purge_queue`
supplied as `pr` and the nested `refresh_queues` oracles as `lr`, `dr`,
`now`.  The `queue_url` argument is consumed only by the client call. -/
def execute_purge (s : App) (queue_name : String) (pr : Except String Unit)
    (lr : Except String (List QueueInfo)) (dr : Except String QueueDetails)
    (now : Nat) : App :=
  let s1 := match pr with
    | .ok _ =>
      refresh_queues
        { s with status_message := "Queue \x27" ++ queue_name ++ "\x27 purged successfully" }
        lr dr now
    | .error e =>
      { s with status_message :=
          "Failed to purge queue \x27" ++ queue_name ++ "\x27: " ++ e }
  { s1 with purge_in_progress := false }

/-- `App::cancel_purge`. -/
def cancel_purge (s : App) : App :=
  { s with awaiting_purge_confirmation := false
           status_message := "Purge cancelled" }

/-- The `AppEvent` enum from `src/events.rs`. -/
inductive AppEvent where
  | Quit
  | Refresh
  | NextQueue
  | PreviousQueue
  | ToggleFilter
  | PurgeQueue
  | ConfirmPurge
  | CancelPurge
deriving Repr, DecidableEq

/-- The oracle inputs one dispatcher iteration may consume: the results
the SQS client would return for list, detail-fetch and purge calls, and
the current wall-clock time. -/
structure Oracle where
  listResult : Except String (List QueueInfo)
  detailResult : Except String QueueDetails
  purgeResult : Except String Unit
  now : Nat
deriving Repr

/-- The event-dispatch arm of `run_app` in `src/main.rs`: the effect of
one polled event on the `App` state. -/
def dispatch (s : App) (ev : AppEvent) (o : Oracle) : App :=
  match ev with
  | .Quit => quit s
  | .Refresh => refresh_queues s o.listResult o.detailResult o.now
  | .NextQueue =>
    if s.awaiting_purge_confirmation then s
    else refresh_selected_details (next_queue s) o.detailResult
  | .PreviousQueue =>
    if s.awaiting_purge_confirmation then s
    else refresh_selected_details (previous_queue s) o.detailResult
  | .ToggleFilter =>
    if s.awaiting_purge_confirmation then s
    else refresh_selected_details (toggle_filter s) o.detailResult
  | .PurgeQueue =>
    if s.awaiting_purge_confirmation then s
    else request_purge_confirmation s
  | .ConfirmPurge =>
    if s.awaiting_purge_confirmation then
      match begin_purge s with
      | (s1, some (_url, name)) =>
        execute_purge s1 name o.purgeResult o.listResult o.detailResult o.now
      | (s1, none) => s1
    else s
  | .CancelPurge =>
    if s.awaiting_purge_confirmation then cancel_purge s else s

/-- States the scheduler loop of `run_app` can reach: the startup state,
closed under dispatching any event (the loop's timer-driven auto-refresh
performs the same `refresh_queues` call as the `Refresh` event, so it is
subsumed by `step` with `AppEvent.Refresh`). -/
inductive Reachable : App → Prop where
  | init : Reachable initApp
  | step : ∀ {s : App}, Reachable s → ∀ (ev : AppEvent) (o : Oracle),
      Reachable (dispatch s ev o)

/-! ### Concrete states used to evaluate the theorems -/

/-- A queue with no messages. -/
def qZeroA : QueueInfo :=
  { url := "https://sqs/a", name := "A", approximate_messages := 0,
    approximate_messages_not_visible := 0, approximate_messages_delayed := 0,
    last_updated := 0 }

/-- A second queue with no messages. -/
def qZeroB : QueueInfo :=
  { qZeroA with url := "https://sqs/b", name := "B" }

/-- A detail record with every optional attribute absent. -/
def dNone : QueueDetails :=
  { arn := none, created_timestamp := none, last_modified_timestamp := none,
    message_retention_period := none, visibility_timeout := none,
    maximum_message_size := none, delay_seconds := none }

/-- An oracle whose list call returns the two empty queues. -/
def oTwo : Oracle :=
  { listResult := .ok [qZeroA, qZeroB], detailResult := .ok dNone,
    purgeResult := .ok (), now := 0 }

/-- An oracle whose list call returns no queues. -/
def oNoQueues : Oracle :=
  { oTwo with listResult := .ok [] }

/-- State after a successful refresh listing `qZeroA` and `qZeroB`. -/
def sTwo : App := dispatch initApp .Refresh oTwo

/-- `sTwo` after one `NextQueue`: the second queue is selected. -/
def sSecond : App := dispatch sTwo .NextQueue oTwo

/-- `sSecond` after `ToggleFilter`: both queues are empty, so the
visible list becomes `[]` while the selected index is still `1`. -/
def sEmptySel : App := dispatch sSecond .ToggleFilter oTwo

/-- `sTwo` after `PurgeQueue`: purge confirmation is pending. -/
def sPending : App := dispatch sTwo .PurgeQueue oTwo

/-- `sPending` after a `Refresh` that returns no queues: confirmation is
still pending but no queue is selected. -/
def sPendingEmpty : App := dispatch sPending .Refresh oNoQueues

/-! ### Basic field-preservation lemmas -/

/-- `refresh_selected_details` touches only `selected_details` and
`status_message`. -/
lemma rsd_fields (s : App) (dr : Except String QueueDetails) :
    (refresh_selected_details s dr).queues = s.queues ∧
    (refresh_selected_details s dr).all_queues = s.all_queues ∧
    (refresh_selected_details s dr).selected_index = s.selected_index ∧
    (refresh_selected_details s dr).filter_non_empty = s.filter_non_empty ∧
    (refresh_selected_details s dr).awaiting_purge_confirmation
      = s.awaiting_purge_confirmation := by
  unfold refresh_selected_details
  cases s.queues.get? s.selected_index <;> cases dr <;> simp

lemma apply_filter_all_queues (s : App) :
    (apply_filter s).all_queues = s.all_queues := by
  unfold apply_filter; split <;> rfl

/-! ### The selection-index invariant -/

/-- On a non-empty visible list the selected index is in range. -/
def idxInv (s : App) : Prop :=
  s.queues ≠ [] → s.selected_index < s.queues.length

/-- The shared clamp step `if selected_index >= queues.len() && !queues.is_empty()
{ selected_index = 0 }` establishes the index invariant unconditionally. -/
lemma idxInv_reset (s : App) : idxInv (reset_selection s) := by
  unfold reset_selection
  by_cases h : s.queues.length ≤ s.selected_index ∧ s.queues ≠ []
  · rw [if_pos h]
    intro hne
    exact List.length_pos.mpr hne
  · rw [if_neg h]
    intro hne
    have : ¬ s.queues.length ≤ s.selected_index := fun hle => h ⟨hle, hne⟩
    omega

lemma idxInv_rsd {s : App} (dr : Except String QueueDetails) (h : idxInv s) :
    idxInv (refresh_selected_details s dr) := by
  unfold idxInv at *
  rw [(rsd_fields s dr).1, (rsd_fields s dr).2.2.1]
  exact h

lemma idxInv_refresh_finish (s : App) (dr : Except String QueueDetails) :
    idxInv (refresh_finish s dr) := by
  unfold refresh_finish
  simp only
  split
  · exact idxInv_rsd dr (idxInv_reset s)
  · exact idxInv_reset s

lemma idxInv_refresh {s : App} (lr : Except String (List QueueInfo))
    (dr : Except String QueueDetails) (now : Nat) (h : idxInv s) :
    idxInv (refresh_queues s lr dr now) := by
  cases lr with
  | error e => exact h
  | ok qs => exact idxInv_refresh_finish _ dr

lemma idxInv_next (s : App) : idxInv (next_queue s) := by
  unfold next_queue
  split
  · intro hne
    simp only at hne ⊢
    exact Nat.mod_lt _ (List.length_pos.mpr (by assumption))
  · intro hne
    exact absurd hne (by simpa using ‹¬ s.queues ≠ []›)

lemma idxInv_prev {s : App} (h : idxInv s) : idxInv (previous_queue s) := by
  unfold previous_queue
  split
  · rename_i hne
    have hlen := List.length_pos.mpr hne
    split
    · intro _
      have := h hne
      simp only
      omega
    · intro _
      simp only
      omega
  · exact h

lemma idxInv_toggle (s : App) : idxInv (toggle_filter s) := by
  unfold toggle_filter
  simp only
  exact idxInv_reset _

lemma idxInv_request {s : App} (h : idxInv s) :
    idxInv (request_purge_confirmation s) := by
  unfold request_purge_confirmation
  cases selected_queue s <;> exact h

lemma idxInv_begin {s : App} (h : idxInv s) : idxInv (begin_purge s).1 := by
  unfold begin_purge
  simp only
  cases hq : selected_queue { s with awaiting_purge_confirmation := false } <;> exact h

lemma idxInv_execute {s : App} (name : String) (pr : Except String Unit)
    (lr : Except String (List QueueInfo)) (dr : Except String QueueDetails)
    (now : Nat) (h : idxInv s) :
    idxInv (execute_purge s name pr lr dr now) := by
  unfold execute_purge
  cases pr with
  | ok u => exact idxInv_refresh lr dr now h
  | error e => exact h

lemma idxInv_dispatch {s : App} (ev : AppEvent) (o : Oracle) (h : idxInv s) :
    idxInv (dispatch s ev o) := by
  cases ev with
  | Quit => exact h
  | Refresh => exact idxInv_refresh _ _ _ h
  | NextQueue =>
    simp only [dispatch]
    split
    · exact h
    · exact idxInv_rsd _ (idxInv_next s)
  | PreviousQueue =>
    simp only [dispatch]
    split
    · exact h
    · exact idxInv_rsd _ (idxInv_prev h)
  | ToggleFilter =>
    simp only [dispatch]
    split
    · exact h
    · exact idxInv_rsd _ (idxInv_toggle s)
  | PurgeQueue =>
    simp only [dispatch]
    split
    · exact h
    · exact idxInv_request h
  | ConfirmPurge =>
    simp only [dispatch]
    split
    · rcases hb : begin_purge s with ⟨s1, opt⟩
      have h1 : idxInv s1 := by
        have h2 := idxInv_begin h
        rw [hb] at h2
        exact h2
      cases opt with
      | some p =>
        rcases p with ⟨u, n⟩
        simp only
        exact idxInv_execute _ _ _ _ _ h1
      | none => exact h1
    · exact h
  | CancelPurge =>
    simp only [dispatch]
    split
    · exact h
    · exact h

/-- Every reachable state satisfies the selection-index invariant. -/
lemma idxInv_reachable {s : App} (h : Reachable s) : idxInv s := by
  induction h with
  | init => intro hne; exact absurd rfl hne
  | step _ ev o ih => exact idxInv_dispatch ev o ih

/-! ### The derived-view invariant -/

/-- `queues` is the pure filtered projection of `all_queues` under
`filter_non_empty`. -/
def filterInv (s : App) : Prop :=
  s.queues = if s.filter_non_empty then
    s.all_queues.filter (fun q => 0 < q.approximate_messages)
  else s.all_queues

lemma filterInv_apply (s : App) : filterInv (apply_filter s) := by
  unfold apply_filter filterInv
  split <;> rfl

lemma filterInv_rsd {s : App} (dr : Except String QueueDetails)
    (h : filterInv s) : filterInv (refresh_selected_details s dr) := by
  unfold filterInv at *
  rw [(rsd_fields s dr).1, (rsd_fields s dr).2.1, (rsd_fields s dr).2.2.2.1]
  exact h

lemma filterInv_reset {s : App} (h : filterInv s) :
    filterInv (reset_selection s) := by
  unfold reset_selection
  split
  · exact h
  · exact h

lemma filterInv_refresh_finish {s : App} (dr : Except String QueueDetails)
    (h : filterInv s) : filterInv (refresh_finish s dr) := by
  unfold refresh_finish
  simp only
  split
  · exact filterInv_rsd dr (filterInv_reset h)
  · exact filterInv_reset h

lemma filterInv_refresh {s : App} (lr : Except String (List QueueInfo))
    (dr : Except String QueueDetails) (now : Nat) (h : filterInv s) :
    filterInv (refresh_queues s lr dr now) := by
  cases lr with
  | error e => exact h
  | ok qs => exact filterInv_refresh_finish dr (filterInv_apply _)

lemma filterInv_toggle (s : App) : filterInv (toggle_filter s) := by
  unfold toggle_filter
  simp only
  exact filterInv_reset (filterInv_apply _)

lemma filterInv_request {s : App} (h : filterInv s) :
    filterInv (request_purge_confirmation s) := by
  unfold request_purge_confirmation
  cases selected_queue s <;> exact h

lemma filterInv_begin {s : App} (h : filterInv s) :
    filterInv (begin_purge s).1 := by
  unfold begin_purge
  simp only
  cases selected_queue { s with awaiting_purge_confirmation := false } <;> exact h

lemma filterInv_execute {s : App} (name : String) (pr : Except String Unit)
    (lr : Except String (List QueueInfo)) (dr : Except String QueueDetails)
    (now : Nat) (h : filterInv s) :
    filterInv (execute_purge s name pr lr dr now) := by
  unfold execute_purge
  cases pr with
  | ok u => exact filterInv_refresh lr dr now h
  | error e => exact h

lemma filterInv_dispatch {s : App} (ev : AppEvent) (o : Oracle)
    (h : filterInv s) : filterInv (dispatch s ev o) := by
  cases ev with
  | Quit => exact h
  | Refresh => exact filterInv_refresh _ _ _ h
  | NextQueue =>
    simp only [dispatch]
    split
    · exact h
    · refine filterInv_rsd _ ?_
      unfold next_queue
      split
      · exact h
      · exact h
  | PreviousQueue =>
    simp only [dispatch]
    split
    · exact h
    · refine filterInv_rsd _ ?_
      unfold previous_queue
      split
      · split
        · exact h
        · exact h
      · exact h
  | ToggleFilter =>
    simp only [dispatch]
    split
    · exact h
    · exact filterInv_rsd _ (filterInv_toggle s)
  | PurgeQueue =>
    simp only [dispatch]
    split
    · exact h
    · exact filterInv_request h
  | ConfirmPurge =>
    simp only [dispatch]
    split
    · rcases hb : begin_purge s with ⟨s1, opt⟩
      have h1 : filterInv s1 := by
        have h2 := filterInv_begin h
        rw [hb] at h2
        exact h2
      cases opt with
      | some p =>
        rcases p with ⟨u, n⟩
        simp only
        exact filterInv_execute _ _ _ _ _ h1
      | none => exact h1
    · exact h
  | CancelPurge =>
    simp only [dispatch]
    split
    · exact h
    · exact h

/-- Every reachable state satisfies the derived-view invariant. -/
lemma filterInv_reachable {s : App} (h : Reachable s) : filterInv s := by
  induction h with
  | init => rfl
  | step _ ev o ih => exact filterInv_dispatch ev o ih

/-! ### Sortedness and stability of the refresh sort -/

lemma mem_insertDesc {z x : QueueInfo} {l : List QueueInfo} :
    z ∈ insertDesc x l ↔ z = x ∨ z ∈ l := by
  induction l with
  | nil => simp [insertDesc]
  | cons y ys ih =>
    unfold insertDesc
    split
    · simp only [List.mem_cons, ih]
      tauto
    · simp only [List.mem_cons]

lemma pairwise_insertDesc {x : QueueInfo} {l : List QueueInfo}
    (h : l.Pairwise (fun a b => b.approximate_messages ≤ a.approximate_messages)) :
    (insertDesc x l).Pairwise
      (fun a b => b.approximate_messages ≤ a.approximate_messages) := by
  induction l with
  | nil => simp [insertDesc]
  | cons y ys ih =>
    rcases List.pairwise_cons.mp h with ⟨hy, hys⟩
    unfold insertDesc
    split
    · rename_i hlt
      refine List.pairwise_cons.mpr ⟨?_, ih hys⟩
      intro z hz
      rcases mem_insertDesc.mp hz with rfl | hz
      · exact le_of_lt hlt
      · exact hy z hz
    · rename_i hnlt
      push_neg at hnlt
      refine List.pairwise_cons.mpr ⟨?_, h⟩
      intro z hz
      rcases List.mem_cons.mp hz with rfl | hz
      · exact hnlt
      · exact le_trans (hy z hz) hnlt

/-- The output of `sortQueues` is sorted descending by visible-message
count. -/
lemma pairwise_sortQueues (l : List QueueInfo) :
    (sortQueues l).Pairwise
      (fun a b => b.approximate_messages ≤ a.approximate_messages) := by
  induction l with
  | nil => simp [sortQueues]
  | cons x xs ih => exact pairwise_insertDesc ih

lemma filter_insertDesc (x : QueueInfo) (l : List QueueInfo) (k : Int) :
    (insertDesc x l).filter (fun q => q.approximate_messages = k)
      = if x.approximate_messages = k then
          x :: l.filter (fun q => q.approximate_messages = k)
        else l.filter (fun q => q.approximate_messages = k) := by
  induction l with
  | nil =>
    by_cases hx : x.approximate_messages = k <;>
      simp [insertDesc, List.filter, hx]
  | cons y ys ih =>
    unfold insertDesc
    split
    · rename_i hlt
      by_cases hy : y.approximate_messages = k <;>
        by_cases hx : x.approximate_messages = k
      · exfalso
        rw [hx, hy] at hlt
        exact lt_irrefl _ hlt
      · simp [List.filter_cons, hy, hx, ih]
      · simp [List.filter_cons, hy, hx, ih]
      · simp [List.filter_cons, hy, hx, ih]
    · by_cases hx : x.approximate_messages = k <;>
        simp [List.filter_cons, hx]

/-- Stability of `sortQueues`: the elements holding any fixed
visible-message count keep their input order. -/
lemma filter_sortQueues (l : List QueueInfo) (k : Int) :
    (sortQueues l).filter (fun q => q.approximate_messages = k)
      = l.filter (fun q => q.approximate_messages = k) := by
  induction l with
  | nil => rfl
  | cons x xs ih =>
    by_cases hx : x.approximate_messages = k <;>
      simp [sortQueues, filter_insertDesc, hx, ih, List.filter_cons]

lemma reset_selection_all_queues (s : App) :
    (reset_selection s).all_queues = s.all_queues := by
  unfold reset_selection
  split <;> rfl

lemma refresh_finish_all_queues (s : App) (dr : Except String QueueDetails) :
    (refresh_finish s dr).all_queues = s.all_queues := by
  unfold refresh_finish
  simp only
  split
  · rw [(rsd_fields _ _).2.1, reset_selection_all_queues]
  · exact reset_selection_all_queues s

/-- A successful refresh stores exactly the sorted service result in
`all_queues`. -/
lemma refresh_ok_all_queues (s : App) (qs : List QueueInfo)
    (dr : Except String QueueDetails) (now : Nat) :
    (refresh_queues s (.ok qs) dr now).all_queues = sortQueues qs := by
  simp [refresh_queues, refresh_finish_all_queues, apply_filter_all_queues]

/-! ### Reachability of the concrete states -/

lemma reachable_sTwo : Reachable sTwo :=
  Reachable.step Reachable.init AppEvent.Refresh oTwo

lemma reachable_sSecond : Reachable sSecond :=
  Reachable.step reachable_sTwo AppEvent.NextQueue oTwo

lemma reachable_sPending : Reachable sPending :=
  Reachable.step reachable_sTwo AppEvent.PurgeQueue oTwo

lemma reachable_sPendingEmpty : Reachable sPendingEmpty :=
  Reachable.step reachable_sPending AppEvent.Refresh oNoQueues

/-! ### The claims -/

/-- C4: when the enumerate call fails, `refresh_queues` leaves every
field of the state (`all_queues`, `queues`, `selected_index`,
`selected_details`, `last_refresh`, flags) unchanged and only replaces
`status_message` with the error description; being a total function it
returns normally. -/
theorem C4_refresh_error_only_status (s : App) (e : String)
    (dr : Except String QueueDetails) (now : Nat) :
    refresh_queues s (.error e) dr now
      = { s with status_message := "Error: " ++ e } := rfl

/-- C5: `execute_purge` on a success result sets the success status
message and then performs a full `refresh_queues`; on a failure result
it sets the failure status message and performs no refresh; in both
cases `purge_in_progress` is false on completion, and the function is
total (never raises). -/
theorem C5_execute_purge_outcomes (s : App) (name e : String)
    (lr : Except String (List QueueInfo)) (dr : Except String QueueDetails)
    (now : Nat) :
    (execute_purge s name (.ok ()) lr dr now
      = { refresh_queues
            { s with status_message :=
                "Queue \x27" ++ name ++ "\x27 purged successfully" }
            lr dr now
          with purge_in_progress := false }) ∧
    (execute_purge s name (.error e) lr dr now
      = { s with
          status_message :=
            "Failed to purge queue \x27" ++ name ++ "\x27: " ++ e
          purge_in_progress := false }) ∧
    (execute_purge s name (.ok ()) lr dr now).purge_in_progress = false ∧
    (execute_purge s name (.error e) lr dr now).purge_in_progress = false :=
  ⟨rfl, rfl, rfl, rfl⟩

/-- C6: after a successful refresh, `all_queues` is sorted descending by
visible-message count, and the elements holding any given count appear
in the same relative order as in the service-returned input (the sort is
stable). -/
theorem C6_refresh_sorted_stable (s : App) (qs : List QueueInfo)
    (dr : Except String QueueDetails) (now : Nat) :
    ((refresh_queues s (.ok qs) dr now).all_queues.Pairwise
      (fun a b => b.approximate_messages ≤ a.approximate_messages)) ∧
    (∀ k : Int,
      (refresh_queues s (.ok qs) dr now).all_queues.filter
          (fun q => q.approximate_messages = k)
        = qs.filter (fun q => q.approximate_messages = k)) := by
  constructor
  · rw [refresh_ok_all_queues]
    exact pairwise_sortQueues qs
  · intro k
    rw [refresh_ok_all_queues]
    exact filter_sortQueues qs k

/-- C7: in every state reachable through the controller's operations,
`queues` equals `all_queues` filtered to positive visible-message count
when `filter_non_empty` is set, else equals `all_queues` exactly. -/
theorem C7_visible_is_projection (s : App) (h : Reachable s) :
    s.queues = if s.filter_non_empty then
      s.all_queues.filter (fun q => 0 < q.approximate_messages)
    else s.all_queues :=
  filterInv_reachable h

/-- Witness for C7 at the reachable state `sTwo`. -/
theorem C7_witness :
    sTwo.queues = (if sTwo.filter_non_empty then
      sTwo.all_queues.filter (fun q => 0 < q.approximate_messages)
    else sTwo.all_queues) :=
  C7_visible_is_projection sTwo reachable_sTwo

/-- C9: whenever the selected index is at or beyond the length of the
visible list, `selected_queue` returns `none` and
`refresh_selected_details` leaves the state unchanged: indexing is
checked and never accesses the queue list out of bounds. -/
theorem C9_checked_indexing (s : App)
    (h : s.queues.length ≤ s.selected_index)
    (dr : Except String QueueDetails) :
    selected_queue s = none ∧ refresh_selected_details s dr = s := by
  have hn : s.queues.get? s.selected_index = none := List.get?_eq_none.mpr h
  refine ⟨hn, ?_⟩
  unfold refresh_selected_details
  rw [hn]

/-- Witness for C9 at the reachable state `sEmptySel`, where the visible
list is empty while the selected index is `1`. -/
theorem C9_witness :
    sEmptySel.queues.length ≤ sEmptySel.selected_index ∧
    (selected_queue sEmptySel = none ∧
     refresh_selected_details sEmptySel (.ok dNone) = sEmptySel) :=
  ⟨by decide, C9_checked_indexing sEmptySel (by decide) (.ok dNone)⟩

/-- C8: on a non-empty visible list, `next_queue` from the last index
wraps the selection to `0` and `previous_queue` from index `0` wraps to
the last index; on an empty list both are no-ops that leave the whole
state unchanged. -/
theorem C8_navigation_wraps (s : App) :
    (s.queues ≠ [] → s.selected_index = s.queues.length - 1 →
      next_queue s = { s with selected_index := 0 }) ∧
    (s.queues ≠ [] → s.selected_index = 0 →
      previous_queue s = { s with selected_index := s.queues.length - 1 }) ∧
    (s.queues = [] → next_queue s = s ∧ previous_queue s = s) := by
  refine ⟨?_, ?_, ?_⟩
  · intro hne hidx
    have hlen : 0 < s.queues.length := List.length_pos.mpr hne
    unfold next_queue
    rw [if_pos hne, hidx, Nat.sub_add_cancel hlen, Nat.mod_self]
  · intro hne hidx
    unfold previous_queue
    rw [if_pos hne, hidx, if_neg (lt_irrefl 0)]
  · intro he
    constructor
    · unfold next_queue
      rw [if_neg (by simp [he])]
    · unfold previous_queue
      rw [if_neg (by simp [he])]

/-- Witness for C8: wrap forward from the last index of `sSecond`, wrap
backward from index `0` of `sTwo`, and the no-ops on the empty startup
state. -/
theorem C8_witness :
    next_queue sSecond = { sSecond with selected_index := 0 } ∧
    previous_queue sTwo = { sTwo with selected_index := sTwo.queues.length - 1 } ∧
    (next_queue initApp = initApp ∧ previous_queue initApp = initApp) :=
  ⟨(C8_navigation_wraps sSecond).1 (by decide) (by decide),
   (C8_navigation_wraps sTwo).2.1 (by decide) (by decide),
   (C8_navigation_wraps initApp).2.2 rfl⟩

/-- Writing back the selected index it already holds is the identity. -/
lemma eq_of_set_index {s : App} {i : Nat} (hi : i = s.selected_index) :
    { s with selected_index := i } = s := by rw [hi]

/-- C10: on any reachable state with a non-empty visible list,
`next_queue` and `previous_queue` are mutual inverses: either
composition restores the original state. -/
theorem C10_navigation_inverse (s : App) (h : Reachable s)
    (hne : s.queues ≠ []) :
    previous_queue (next_queue s) = s ∧ next_queue (previous_queue s) = s := by
  have hidx : s.selected_index < s.queues.length := idxInv_reachable h hne
  have hlen : 0 < s.queues.length := List.length_pos.mpr hne
  constructor
  · by_cases hc : s.selected_index + 1 < s.queues.length
    · have hmod : (s.selected_index + 1) % s.queues.length
          = s.selected_index + 1 := Nat.mod_eq_of_lt hc
      simp only [next_queue, previous_queue, hne, if_pos, hmod]
      simp [hne]
    · have h1 : s.selected_index + 1 = s.queues.length := by omega
      simp only [next_queue, previous_queue]
      simp [hne, h1, Nat.mod_self]
      exact eq_of_set_index (by omega)
  · by_cases hz : 0 < s.selected_index
    · simp only [previous_queue, next_queue]
      simp [hne, hz]
      rw [Nat.sub_add_cancel hz, Nat.mod_eq_of_lt hidx]
    · have h0 : s.selected_index = 0 := by omega
      simp only [previous_queue, next_queue]
      simp [hne, hz, h0, Nat.sub_add_cancel hlen, Nat.mod_self]
      exact eq_of_set_index h0.symm

/-- Witness for C10 at the reachable state `sTwo`. -/
theorem C10_witness :
    sTwo.queues ≠ [] ∧
    previous_queue (next_queue sTwo) = sTwo ∧
    next_queue (previous_queue sTwo) = sTwo :=
  ⟨by decide,
   (C10_navigation_inverse sTwo reachable_sTwo (by decide)).1,
   (C10_navigation_inverse sTwo reachable_sTwo (by decide)).2⟩

/-- C1 as stated is false: `sPending` is a reachable state with
`awaiting_purge_confirmation = true`, yet dispatching the `Refresh`
action (which is neither ConfirmPurge nor CancelPurge) is not swallowed —
it invokes `refresh_queues` and changes the state. -/
theorem C1_counterexample :
    Reachable sPending ∧
    sPending.awaiting_purge_confirmation = true ∧
    dispatch sPending .Refresh oTwo ≠ sPending :=
  ⟨reachable_sPending, by decide, by decide⟩

/-- C1 (amended): while `awaiting_purge_confirmation` is true the
dispatcher swallows SelectNext, SelectPrevious, ToggleFilter and
RequestPurge (the state is unchanged and the controller operation is
never invoked), but Refresh and Quit are still dispatched normally. -/
theorem C1_amended_gating (s : App) (o : Oracle)
    (h : s.awaiting_purge_confirmation = true) :
    dispatch s .NextQueue o = s ∧
    dispatch s .PreviousQueue o = s ∧
    dispatch s .ToggleFilter o = s ∧
    dispatch s .PurgeQueue o = s ∧
    dispatch s .Refresh o
      = refresh_queues s o.listResult o.detailResult o.now ∧
    dispatch s .Quit o = quit s := by
  refine ⟨?_, ?_, ?_, ?_, rfl, rfl⟩ <;> simp [dispatch, h]

/-- Witness for C1 (amended) at the reachable pending state `sPending`. -/
theorem C1_witness :
    sPending.awaiting_purge_confirmation = true ∧
    (dispatch sPending .NextQueue oTwo = sPending ∧
     dispatch sPending .PreviousQueue oTwo = sPending ∧
     dispatch sPending .ToggleFilter oTwo = sPending ∧
     dispatch sPending .PurgeQueue oTwo = sPending ∧
     dispatch sPending .Refresh oTwo
       = refresh_queues sPending oTwo.listResult oTwo.detailResult oTwo.now ∧
     dispatch sPending .Quit oTwo = quit sPending) :=
  ⟨by decide, C1_amended_gating sPending oTwo (by decide)⟩

/-- C2 as stated is false: `sSecond` is reachable with the second of two
empty queues selected; `toggle_filter` then shrinks the visible list to
`[]`, and the clamp (`selected_index >= len && !is_empty`) does not fire
on an empty list, so the selected index stays `1` instead of `0`. -/
theorem C2_counterexample :
    Reachable sSecond ∧
    (toggle_filter sSecond).queues = [] ∧
    (toggle_filter sSecond).selected_index = 1 :=
  ⟨reachable_sSecond, by decide, by decide⟩

/-- C2 (amended): in every reachable state — hence after every
controller operation applied from startup — a non-empty visible list has
`selected_index < len(queues)`; when the list is empty the index may
retain a stale non-zero value. -/
theorem C2_amended_index_invariant (s : App) (h : Reachable s)
    (hne : s.queues ≠ []) : s.selected_index < s.queues.length :=
  idxInv_reachable h hne

/-- Witness for C2 (amended) at the reachable state `sSecond`. -/
theorem C2_witness :
    sSecond.queues ≠ [] ∧ sSecond.selected_index < sSecond.queues.length :=
  ⟨by decide, C2_amended_index_invariant sSecond reachable_sSecond (by decide)⟩

/-- C3 as stated is false: `begin_purge` clears
`awaiting_purge_confirmation` unconditionally before checking the
selection, so on the reachable state `sPendingEmpty` (confirmation
pending, no queue selected) it returns `none` but does not leave the
state unchanged. -/
theorem C3_counterexample :
    Reachable sPendingEmpty ∧
    selected_queue sPendingEmpty = none ∧
    sPendingEmpty.awaiting_purge_confirmation = true ∧
    (begin_purge sPendingEmpty).2 = none ∧
    (begin_purge sPendingEmpty).1 ≠ sPendingEmpty :=
  ⟨reachable_sPendingEmpty, by decide, by decide, by decide, by decide⟩

/-- C3 (amended): `begin_purge` always clears
`awaiting_purge_confirmation`; with no queue selected it returns `none`
and changes nothing else, and with a selected queue it additionally sets
`purge_in_progress = true`, sets the in-progress status message, and
returns the queue's url and name. -/
theorem C3_amended_begin_purge (s : App) :
    (selected_queue s = none →
      begin_purge s = ({ s with awaiting_purge_confirmation := false }, none)) ∧
    (∀ q, selected_queue s = some q →
      begin_purge s =
        ({ s with
            awaiting_purge_confirmation := false
            purge_in_progress := true
            status_message := "Purging queue \x27" ++ q.name ++ "\x27..." },
         some (q.url, q.name))) := by
  have hsel : selected_queue { s with awaiting_purge_confirmation := false }
      = selected_queue s := rfl
  constructor
  · intro h
    simp only [begin_purge]
    rw [hsel, h]
  · intro q h
    simp only [begin_purge]
    rw [hsel, h]

/-- Witness for C3 (amended) at the reachable state `sPendingEmpty`. -/
theorem C3_witness :
    selected_queue sPendingEmpty = none ∧
    begin_purge sPendingEmpty
      = ({ sPendingEmpty with awaiting_purge_confirmation := false }, none) :=
  ⟨by decide, (C3_amended_begin_purge sPendingEmpty).1 (by decide)⟩

end SqsMonitor
